import Mathlib

/-!
# Verification of the tool-augmented agent core of problem-to-manim

Shallow embedding of `src/agent/tools.ts` (the text-editor tool and the bash
tool) and of `src/api/generate.ts` (the request handler around the agent loop),
together with proofs of the testable properties stated in the specification.

Modelling conventions:
* A JavaScript string is modelled as a Lean `String` (a list of characters);
  character-level operations (`split`, `slice`, `splice`, `replace`,
  `includes`) are implemented below over `List Char`, following ECMAScript
  semantics of the exact operations the source uses.
* The file system visible through `fs` (`existsSync`, `readFileSync`,
  `writeFileSync`) is an association list from absolute path to content, with
  the most recent write shadowing older entries.  `mkdirSync` with
  `recursive: true` never fails and affects no file content, so it is a no-op
  on this abstraction.
* `child_process.execSync` and the shell are external to the repository; they
  are abstracted as a state-transforming oracle producing either captured
  stdout (exit 0) or an error value carrying `message`, `stderr`, `stdout`,
  exactly the fields the `catch` block of `getBashTool` reads.
-/

namespace ManimAgent

/-! ## File-system model (`fs` as used by tools.ts) -/

/-- The file system: an association list from (resolved) path to file content.
A write prepends, shadowing any older entry for the same path. -/
abbrev FS := List (String × String)

/-- Look up the content stored at path `p`. -/
def fsLookup (fs : FS) (p : String) : Option String :=
  match fs with
  | [] => none
  | (q, c) :: rest => if q = p then some c else fsLookup rest p

/-- `existsSync(fullPath)`: does the path hold a file? -/
def existsSync (fs : FS) (p : String) : Bool :=
  (fsLookup fs p).isSome

/-- `readFileSync(fullPath, "utf-8")`: the source only reads after a
successful `existsSync` check, so the default for a missing file is never
observed. -/
def readFileSync (fs : FS) (p : String) : String :=
  (fsLookup fs p).getD ""

/-- `writeFileSync(fullPath, content, "utf-8")`: establish or overwrite the
file.  `mkdirSync(dirname(fullPath), { recursive: true })` always succeeds and
creates no file, so it adds nothing to this abstraction. -/
def writeFileSync (fs : FS) (p : String) (content : String) : FS :=
  (p, content) :: fs

/-! ## JavaScript character-level string operations -/

/-- Helper for `splitNl`: returns the segment before the first newline and the
list of the remaining segments. -/
def splitNlAux : List Char → List Char × List (List Char)
  | [] => ([], [])
  | c :: rest =>
    let p := splitNlAux rest
    if c = '\n' then ([], p.1 :: p.2) else (c :: p.1, p.2)

/-- `s.split("\n")` on the character list of `s`: always a non-empty list of
newline-free segments. -/
def splitNl (s : List Char) : List (List Char) :=
  (splitNlAux s).1 :: (splitNlAux s).2

/-- `lines.join("\n")` on character lists. -/
def joinNl : List (List Char) → List Char
  | [] => []
  | [l] => l
  | l :: l2 :: rest => l ++ '\n' :: joinNl (l2 :: rest)

/-- Clamp a JavaScript array index (`Array.prototype.slice` / `splice`
semantics): negative indices count from the end, indices beyond the length
clamp to the length. -/
def jsIndex (len : Nat) (i : Int) : Nat :=
  if i < 0 then ((len : Int) + i).toNat else min i.toNat len

/-- `l.slice(a, b)` (JavaScript `Array.prototype.slice`). -/
def jsSlice {α : Type} (l : List α) (a b : Int) : List α :=
  (l.take (jsIndex l.length b)).drop (jsIndex l.length a)

/-- `l.splice(i, 0, x)` (JavaScript `Array.prototype.splice` inserting one
element, as used by the `insert` command). -/
def jsSpliceInsert {α : Type} (l : List α) (i : Int) (x : α) : List α :=
  let s := jsIndex l.length i
  l.take s ++ x :: l.drop s

/-- Does `pat` occur at the very start of `s`? -/
def isLeading : List Char → List Char → Bool
  | [], _ => true
  | _ :: _, [] => false
  | a :: as, b :: bs => if a = b then isLeading as bs else false

/-- Helper for `stringIndexOf`: first index `≥ i` (in the original string) at
which `pat` occurs in the remaining suffix `l`. -/
def firstIndexAux (pat : List Char) : List Char → Nat → Option Nat
  | l, i =>
    if isLeading pat l then some i
    else
      match l with
      | [] => none
      | _ :: rest => firstIndexAux pat rest (i + 1)

/-- `s.indexOf(pat)` as an `Option`: the position of the first occurrence. -/
def stringIndexOf (s pat : List Char) : Option Nat :=
  firstIndexAux pat s 0

/-- `s.includes(pat)` (ECMAScript `String.prototype.includes`). -/
def includesSub (s pat : List Char) : Bool :=
  (stringIndexOf s pat).isSome

/-- The number of positions of `s` at which `pat` occurs (used to state
"exactly one occurrence"). -/
def countOccur (s pat : List Char) : Nat :=
  (List.range (s.length + 1)).countP (fun i => isLeading pat (s.drop i))

/-- ECMAScript `GetSubstitution` for a *string* pattern (no capture groups):
expands `$$`, `$&`, a dollar followed by a backtick (text before the match)
and a dollar followed by a single quote (text after the match); every other
use of the dollar character is literal. -/
def getSubstitution (matched before after : List Char) : List Char → List Char
  | [] => []
  | [c] => [c]
  | c :: d :: rest =>
    if c = '$' then
      if d = '$' then '$' :: getSubstitution matched before after rest
      else if d = '&' then matched ++ getSubstitution matched before after rest
      else if d = Char.ofNat 96 then before ++ getSubstitution matched before after rest
      else if d = Char.ofNat 39 then after ++ getSubstitution matched before after rest
      else c :: d :: getSubstitution matched before after rest
    else c :: getSubstitution matched before after (d :: rest)

/-- `cur.replace(old, new)` with both arguments strings (ECMAScript
`String.prototype.replace`): replaces the first occurrence of `old`, applying
`GetSubstitution` to the replacement string. -/
def jsReplace (cur old new : List Char) : List Char :=
  match stringIndexOf cur old with
  | none => cur
  | some p =>
    cur.take p ++
      getSubstitution old (cur.take p) (cur.drop (p + old.length)) new ++
      cur.drop (p + old.length)

/-! ## The text-editor tool (`getTextEditorTool` in tools.ts) -/

/-- `maxCharacters: 50000` — the configuration value passed to the tool
declaration in tools.ts. -/
def maxCharacters : Nat := 50000

/-- The commands of the text-editor tool.  The provider schema only ever
delivers these four values, so the `default` branch of the source's `switch`
(returning `Unknown command`) is unreachable and not modelled. -/
inductive EditCommand where
  | view (path : String) (viewRange : Option (Int × Int))
  | create (path : String) (fileText : String)
  | strReplace (path : String) (oldStr newStr : String)
  | insert (path : String) (insertLine : Int) (insertText : String)

/-- The `execute` function of the text-editor tool.  `resolvePath` abstracts
`path.resolve` (resolution against the process working directory); the result
is the returned message together with the file system after the call. -/
def textEditorExecute (resolvePath : String → String) (fs : FS) :
    EditCommand → String × FS
  | .view path viewRange =>
    let fullPath := resolvePath path
    if existsSync fs fullPath then
      let content := readFileSync fs fullPath
      match viewRange with
      | some (a, b) =>
        (String.mk (joinNl (jsSlice (splitNl content.data) (a - 1) b)), fs)
      | none => (content, fs)
    else ("Error: File " ++ path ++ " not found", fs)
  | .create path fileText =>
    let fullPath := resolvePath path
    ("File created: " ++ path, writeFileSync fs fullPath fileText)
  | .strReplace path oldStr newStr =>
    let fullPath := resolvePath path
    if existsSync fs fullPath then
      let current := readFileSync fs fullPath
      if includesSub current.data oldStr.data then
        let updated := String.mk (jsReplace current.data oldStr.data newStr.data)
        ("File updated: " ++ path, writeFileSync fs fullPath updated)
      else ("Error: old_str not found in " ++ path, fs)
    else ("Error: File " ++ path ++ " not found for str_replace", fs)
  | .insert path insertLine insertText =>
    let fullPath := resolvePath path
    if existsSync fs fullPath then
      let lines := splitNl (readFileSync fs fullPath).data
      let newLines := jsSpliceInsert lines insertLine insertText.data
      ("Text inserted at line " ++ toString insertLine ++ " in " ++ path,
        writeFileSync fs fullPath (String.mk (joinNl newLines)))
    else ("Error: File " ++ path ++ " not found for insert", fs)

/-! ## The bash tool (`getBashTool` in tools.ts) -/

/-- The error value caught from `execSync`: Node's error object carries a
`message` and the captured `stderr` and `stdout` (possibly absent, read by the
source as `error.stderr || ""`). -/
structure ExecError where
  message : String
  stderr : Option String
  stdout : Option String
deriving DecidableEq

/-- Outcome of `execSync(command, {timeout: 30000, maxBuffer: 1024*1024})`:
either the captured stdout of an exit-0 run, or a thrown error (non-zero
exit, timeout after 30 s, spawn failure, output beyond the 1 MB buffer). -/
inductive ExecOutcome where
  | success (stdout : String)
  | failure (e : ExecError)
deriving DecidableEq

/-- The `execute` function of the bash tool.  The shell is abstracted as an
oracle transforming an ambient state `σ` (file system, processes, …); the
result is the returned message together with the state after the call.  The
`try`/`catch` of the source means every outcome — including all failure
modes — is converted into a returned string; nothing escapes to the caller. -/
def bashExecute {σ : Type} (shell : σ → String → ExecOutcome × σ) (st : σ)
    (command : String) (restart : Bool) : String × σ :=
  if restart then ("Bash session restarted", st)
  else
    match shell st command with
    | (.success out, st') =>
      ((if out = "" then "Command executed successfully (no output)" else out), st')
    | (.failure e, st') =>
      ("Error: " ++ e.message ++ "\nStderr: " ++ e.stderr.getD "" ++
        "\nStdout: " ++ e.stdout.getD "", st')

/-- A tool result as seen by the reasoning engine. -/
structure ToolResult where
  output : String
  isError : Bool
deriving DecidableEq

/-- Modelled from the spec: the SDK envelope that wraps a tool execution into
a `ToolResult` is not part of the repository source (only the `execute`
functions are); per the spec, "all failure modes (non-zero exit, timeout,
spawn failure) are converted into a textual `ToolResult` with `isError=true`",
and successful executions (and the restart confirmation) are ordinary
non-error results. -/
def bashToolResult {σ : Type} (shell : σ → String → ExecOutcome × σ) (st : σ)
    (command : String) (restart : Bool) : ToolResult × σ :=
  let r := bashExecute shell st command restart
  if restart then ({ output := r.1, isError := false }, r.2)
  else
    match (shell st command).1 with
    | .success _ => ({ output := r.1, isError := false }, r.2)
    | .failure _ => ({ output := r.1, isError := true }, r.2)

/-! ## The agent loop

The multi-step tool loop (`generateText` / `streamText` with
`stopWhen: stepCountIs(20)`) is implemented by the AI SDK, outside this
repository; `src/api/generate.ts` only configures and invokes it.  It is
modelled from the spec (§4.3): per turn the engine returns either plain text
(the loop finishes) or tool calls accompanied by text and usage (the loop
dispatches them and continues), and the loop hard-stops after `stepLimit`
completed turns, returning the accumulated text and summed usage. -/

/-- Token usage of one step, and the running totals. -/
structure Usage where
  promptTokens : Nat
  completionTokens : Nat
  totalTokens : Nat
deriving DecidableEq

/-- Componentwise accumulation of usage across steps. -/
def Usage.add (a b : Usage) : Usage :=
  ⟨a.promptTokens + b.promptTokens, a.completionTokens + b.completionTokens,
    a.totalTokens + b.totalTokens⟩

/-- Modelled from the spec: the outcome of one engine turn — either final
plain text (no tool calls) or a batch of tool calls together with the turn's
text; both carry the step's token usage. -/
inductive TurnOutcome where
  | finalText (text : String) (usage : Usage)
  | toolCalls (calls : List String) (text : String) (usage : Usage)
deriving DecidableEq

/-- Did the turn request more tool calls? -/
def TurnOutcome.isToolUse : TurnOutcome → Bool
  | .finalText _ _ => false
  | .toolCalls _ _ _ => true

/-- The text produced in a turn. -/
def TurnOutcome.text : TurnOutcome → String
  | .finalText t _ => t
  | .toolCalls _ t _ => t

/-- The usage consumed in a turn. -/
def TurnOutcome.usage : TurnOutcome → Usage
  | .finalText _ u => u
  | .toolCalls _ _ u => u

/-- The aggregated result of a loop: final text, summed usage, number of
completed turns. -/
structure LoopResult where
  text : String
  usage : Usage
  stepCount : Nat
deriving DecidableEq

/-- Modelled from the spec: the reasoning engine as an opaque function from
the transcript so far (abstracted to the sequence of prior turn outcomes) to
the next turn outcome. -/
abbrev Engine := List TurnOutcome → TurnOutcome

/-- Modelled from the spec: the blocking agent loop.  `fuel` is the number of
turns still allowed; each turn appends its outcome to the transcript,
accumulates text and usage, and the loop stops on a `finalText` turn or when
the fuel is exhausted (step limit reached) — in the latter case it still
returns the accumulated text and usage. -/
def runLoopAux (respond : Engine) :
    Nat → List TurnOutcome → String → Usage → LoopResult
  | 0, tr, accText, accUsage =>
    { text := accText, usage := accUsage, stepCount := tr.length }
  | fuel + 1, tr, accText, accUsage =>
    match respond tr with
    | .finalText t u =>
      { text := accText ++ t, usage := accUsage.add u, stepCount := tr.length + 1 }
    | .toolCalls cs t u =>
      runLoopAux respond fuel (tr ++ [.toolCalls cs t u]) (accText ++ t)
        (accUsage.add u)

/-- Modelled from the spec: run the agent loop with a step limit from a fresh
transcript. -/
def runLoop (respond : Engine) (stepLimit : Nat) : LoopResult :=
  runLoopAux respond stepLimit [] "" ⟨0, 0, 0⟩

/-- The sequence of turn outcomes actually taken by the loop (for stating
what "accumulated" text and usage mean). -/
def loopTurns (respond : Engine) : Nat → List TurnOutcome → List TurnOutcome
  | 0, _ => []
  | fuel + 1, tr =>
    match respond tr with
    | .finalText t u => [.finalText t u]
    | .toolCalls cs t u =>
      .toolCalls cs t u :: loopTurns respond fuel (tr ++ [.toolCalls cs t u])

/-- Concatenation of the text of a sequence of turns. -/
def turnsText : List TurnOutcome → String
  | [] => ""
  | o :: rest => o.text ++ turnsText rest

/-- Sum of the usage of a sequence of turns. -/
def turnsUsage : List TurnOutcome → Usage
  | [] => ⟨0, 0, 0⟩
  | o :: rest => o.usage.add (turnsUsage rest)

/-- Modelled from the spec: the streaming agent loop.  Identical state
machine, but the text is delivered as the list of per-turn chunks; the
aggregate text is the concatenation of the chunks. -/
def runStreamAux (respond : Engine) :
    Nat → List TurnOutcome → List String → Usage → List String × Usage × Nat
  | 0, tr, chunks, accUsage => (chunks, accUsage, tr.length)
  | fuel + 1, tr, chunks, accUsage =>
    match respond tr with
    | .finalText t u => (chunks ++ [t], accUsage.add u, tr.length + 1)
    | .toolCalls cs t u =>
      runStreamAux respond fuel (tr ++ [.toolCalls cs t u]) (chunks ++ [t])
        (accUsage.add u)

/-- Concatenate streamed chunks into the aggregate text. -/
def chunksConcat (chunks : List String) : String :=
  chunks.foldl (fun a b => a ++ b) ""

/-- Modelled from the spec: run the streaming loop, returning the streamed
chunks together with the aggregated `LoopResult`. -/
def runLoopStreaming (respond : Engine) (stepLimit : Nat) :
    List String × LoopResult :=
  let r := runStreamAux respond stepLimit [] [] ⟨0, 0, 0⟩
  (r.1, { text := chunksConcat r.1, usage := r.2.1, stepCount := r.2.2 })

/-! ## The request handler (`handleGenerate` in generate.ts and its streaming
variant) -/

/-- The default model identifier passed to the gateway by both variants. -/
def defaultModel : String := "anthropic/claude-haiku-4.5"

/-- The step limit configured by `stopWhen: stepCountIs(20)`. -/
def configuredStepLimit : Nat := 20

/-- The user prompt both variants build from the topic and output
directory. -/
def promptFor (topic outputDir : String) : String :=
  "Create a Manim animation for the topic: \"" ++ topic ++
    "\"\n\nWrite all output files (JSON, TXT, PY) into the directory: " ++ outputDir

/-- The `{text, usage, steps}` part of the response (the `requestId`, a fresh
UUID, is excluded from the equivalence claims). -/
structure GenerateResponse where
  text : String
  usage : Usage
  steps : Nat
deriving DecidableEq

/-- The blocking `handleGenerate` (generate.ts, using `generateText`): builds
the prompt, applies the default model, runs the loop with the configured step
limit, and aggregates `{text, usage, steps}`.  The engine family abstracts the
reasoning engine's behaviour as a function of the chosen model and prompt. -/
def handleGenerate (engine : String → String → Engine) (topic : String)
    (model : Option String) (outputDir : String) : GenerateResponse :=
  let r := runLoop (engine (model.getD defaultModel) (promptFor topic outputDir))
    configuredStepLimit
  { text := r.text, usage := r.usage, steps := r.stepCount }

/-- The streaming `handleGenerate` variant (using `streamText`): identical
configuration, text surfaced incrementally as chunks, then aggregated. -/
def handleGenerateStream (engine : String → String → Engine) (topic : String)
    (model : Option String) (outputDir : String) :
    List String × GenerateResponse :=
  let r := runLoopStreaming
    (engine (model.getD defaultModel) (promptFor topic outputDir))
    configuredStepLimit
  (r.1, { text := r.2.text, usage := r.2.usage, steps := r.2.stepCount })

/-! ## Basic file-system lemmas -/

theorem fsLookup_writeFileSync_self (fs : FS) (p c : String) :
    fsLookup (writeFileSync fs p c) p = some c := by
  simp [writeFileSync, fsLookup]

theorem existsSync_writeFileSync_self (fs : FS) (p c : String) :
    existsSync (writeFileSync fs p c) p = true := by
  simp [existsSync, fsLookup_writeFileSync_self]

theorem textEditor_view_none (resolvePath : String → String) (fs : FS)
    (p cur : String) (h : fsLookup fs (resolvePath p) = some cur) :
    textEditorExecute resolvePath fs (.view p none) = (cur, fs) := by
  simp [textEditorExecute, existsSync, readFileSync, h]

/-! ## Claim C1: view fails on a missing file; create establishes content -/

/-- C1: for every path whose file does not exist, `view` returns the
`not found` error and leaves the file system unchanged; and for every path
and text, `create` succeeds unconditionally (parent directories are created
by `mkdirSync`, an existing file is overwritten) and a subsequent `view`
returns exactly the created text. -/
theorem view_notfound_create_view (resolvePath : String → String) (fs : FS)
    (p t : String) (r : Option (Int × Int)) :
    (existsSync fs (resolvePath p) = false →
      textEditorExecute resolvePath fs (.view p r) =
        ("Error: File " ++ p ++ " not found", fs)) ∧
    textEditorExecute resolvePath
        (textEditorExecute resolvePath fs (.create p t)).2 (.view p none) =
      (t, (textEditorExecute resolvePath fs (.create p t)).2) := by
  constructor
  · intro h
    simp [textEditorExecute, h]
  · simp [textEditorExecute, existsSync_writeFileSync_self, readFileSync,
      fsLookup_writeFileSync_self]

/-- Witness for C1 at a concrete input: an empty file system, path
`out.txt`, content `hello`. -/
theorem view_notfound_create_view_witness :
    textEditorExecute id [] (.view "out.txt" none) =
      ("Error: File out.txt not found", []) ∧
    textEditorExecute id [("out.txt", "hello")] (.view "out.txt" none) =
      ("hello", [("out.txt", "hello")]) :=
  ⟨(view_notfound_create_view id [] "out.txt" "hello" none).1 rfl,
    (view_notfound_create_view id [] "out.txt" "hello" none).2⟩

/-! ## Claim C8: restart runs nothing and changes nothing -/

/-- C8: when `restart` is set, the bash tool consults no shell at all — for
*every* shell oracle and every ambient state, the state is returned unchanged
and the result is the fixed confirmation message. -/
theorem bash_restart_noop {σ : Type} (shell : σ → String → ExecOutcome × σ)
    (st : σ) (command : String) :
    bashExecute shell st command true = ("Bash session restarted", st) := by
  simp [bashExecute]

/-! ## Claim C10: empty stdout of a successful command becomes a fixed
message -/

/-- C10: a command that exits 0 with empty stdout yields the fixed message
`Command executed successfully (no output)`, and a successful execution never
returns the empty string. -/
theorem bash_empty_stdout_message {σ : Type}
    (shell : σ → String → ExecOutcome × σ) (st : σ) (command : String)
    (out : String) (st' : σ) (h : shell st command = (.success out, st')) :
    (out = "" →
      bashExecute shell st command false =
        ("Command executed successfully (no output)", st')) ∧
    (bashExecute shell st command false).1 ≠ "" := by
  constructor
  · intro h0
    simp [bashExecute, h, h0]
  · by_cases hout : out = ""
    · simp [bashExecute, h, hout]
    · simp [bashExecute, h, hout]

/-- Witness for C10 at a concrete input: a shell whose command exits 0 with
empty stdout. -/
theorem bash_empty_stdout_message_witness :
    bashExecute (fun (s : Unit) _ => (ExecOutcome.success "", s)) () "true" false =
      ("Command executed successfully (no output)", ()) :=
  (bash_empty_stdout_message (fun (s : Unit) _ => (ExecOutcome.success "", s))
    () "true" "" () rfl).1 rfl

/-! ## Claim C7: stdout of a successful command is returned verbatim —
refuted for empty stdout, holds for non-empty stdout -/

/-- C7 counterexample: a command that exits 0 with empty stdout does *not*
get its stdout back verbatim — the tool substitutes the fixed
`no output` message, which differs from the empty string. -/
theorem bash_empty_stdout_counterexample :
    (bashExecute (fun (s : Unit) _ => (ExecOutcome.success "", s)) () "true"
        false).1 = "Command executed successfully (no output)" ∧
    "Command executed successfully (no output)" ≠ "" := by
  exact ⟨rfl, by decide⟩

/-- C7 amended: a command that exits 0 within the timeout with *non-empty*
captured stdout gets that stdout back verbatim (the capture itself is
untruncated below the 1 MB `maxBuffer` cap enforced inside `execSync`), and
the result is not an error. -/
theorem bash_success_stdout_verbatim {σ : Type}
    (shell : σ → String → ExecOutcome × σ) (st : σ) (command : String)
    (out : String) (st' : σ) (h : shell st command = (.success out, st'))
    (hne : out ≠ "") :
    bashExecute shell st command false = (out, st') ∧
    (bashToolResult shell st command false).1 =
      { output := out, isError := false } := by
  constructor
  · simp [bashExecute, h, hne]
  · simp [bashToolResult, bashExecute, h, hne]

/-- Witness for the amended C7 at a concrete input: a shell producing
stdout `hi`. -/
theorem bash_success_stdout_verbatim_witness :
    bashExecute (fun (s : Unit) _ => (ExecOutcome.success "hi", s)) () "echo hi"
        false = ("hi", ()) :=
  (bash_success_stdout_verbatim (fun (s : Unit) _ => (ExecOutcome.success "hi", s))
    () "echo hi" "hi" () rfl (by decide)).1

/-! ## Claim C9: view output bounded by `maxCharacters` — refuted: the
execute implementation never truncates -/

/-- C9 counterexample: a file holding 50 001 characters is returned by `view`
in full, exceeding the configured `maxCharacters = 50000`; the cap is
configuration passed to the tool declaration, not enforced by the execute
implementation. -/
theorem view_exceeds_max_characters :
    maxCharacters <
      ((textEditorExecute id [("big", String.mk (List.replicate 50001 'a'))]
          (.view "big" none)).1).length := by
  have h : textEditorExecute id [("big", String.mk (List.replicate 50001 'a'))]
      (.view "big" none) =
      (String.mk (List.replicate 50001 'a'),
        [("big", String.mk (List.replicate 50001 'a'))]) :=
    textEditor_view_none id _ "big" _ rfl
  rw [h]
  show maxCharacters < (List.replicate 50001 'a').length
  rw [List.length_replicate]
  decide

/-- C9 amended: `view` (without a range) returns the stored content verbatim,
so its output length equals the content length; in particular the output is
within the 50 000-character `maxCharacters` bound exactly when the stored
content is. -/
theorem view_returns_content_verbatim (resolvePath : String → String)
    (fs : FS) (p cur : String) (h : fsLookup fs (resolvePath p) = some cur) :
    (textEditorExecute resolvePath fs (.view p none)).1 = cur ∧
    ((textEditorExecute resolvePath fs (.view p none)).1.length ≤ maxCharacters ↔
      cur.length ≤ maxCharacters) := by
  have h1 : (textEditorExecute resolvePath fs (.view p none)).1 = cur := by
    simp [textEditorExecute, existsSync, readFileSync, h]
  exact ⟨h1, by rw [h1]⟩

/-- Witness for the amended C9 at a concrete input. -/
theorem view_returns_content_verbatim_witness :
    (textEditorExecute id [("f", "abc")] (.view "f" none)).1 = "abc" :=
  (view_returns_content_verbatim id [("f", "abc")] "f" "abc" rfl).1

/-! ## Agent-loop lemmas -/

theorem Usage.add_assoc (a b c : Usage) : (a.add b).add c = a.add (b.add c) := by
  cases a; cases b; cases c
  simp [Usage.add, Nat.add_assoc]

theorem Usage.zero_add (a : Usage) : (Usage.mk 0 0 0).add a = a := by
  cases a
  simp [Usage.add]

theorem String.empty_append_eq (s : String) : "" ++ s = s :=
  String.ext (by simp)

theorem runLoopAux_stepCount_le (respond : Engine) (fuel : Nat) :
    ∀ tr accText accUsage,
      (runLoopAux respond fuel tr accText accUsage).stepCount ≤
        tr.length + fuel := by
  induction fuel with
  | zero => intro tr accText accUsage; simp [runLoopAux]
  | succ n ih =>
    intro tr accText accUsage
    rw [runLoopAux]
    cases hr : respond tr with
    | finalText t u => simp
    | toolCalls cs t u =>
      have := ih (tr ++ [.toolCalls cs t u]) (accText ++ t) (accUsage.add u)
      simp at this ⊢
      omega

theorem runLoopAux_stepCount_of_tools (respond : Engine)
    (htools : ∀ tr, (respond tr).isToolUse = true) (fuel : Nat) :
    ∀ tr accText accUsage,
      (runLoopAux respond fuel tr accText accUsage).stepCount =
        tr.length + fuel := by
  induction fuel with
  | zero => intro tr accText accUsage; simp [runLoopAux]
  | succ n ih =>
    intro tr accText accUsage
    rw [runLoopAux]
    cases hr : respond tr with
    | finalText t u =>
      have := htools tr
      rw [hr] at this
      simp [TurnOutcome.isToolUse] at this
    | toolCalls cs t u =>
      have := ih (tr ++ [.toolCalls cs t u]) (accText ++ t) (accUsage.add u)
      simp at this ⊢
      omega

theorem runLoopAux_accumulates (respond : Engine) (fuel : Nat) :
    ∀ tr accText accUsage,
      (runLoopAux respond fuel tr accText accUsage).text =
        accText ++ turnsText (loopTurns respond fuel tr) ∧
      (runLoopAux respond fuel tr accText accUsage).usage =
        accUsage.add (turnsUsage (loopTurns respond fuel tr)) := by
  induction fuel with
  | zero =>
    intro tr accText accUsage
    simp [runLoopAux, loopTurns, turnsText, turnsUsage, Usage.add]
  | succ n ih =>
    intro tr accText accUsage
    rw [runLoopAux, loopTurns]
    cases hr : respond tr with
    | finalText t u =>
      simp [turnsText, turnsUsage, TurnOutcome.text, TurnOutcome.usage,
        Usage.add, String.append_assoc]
    | toolCalls cs t u =>
      have := ih (tr ++ [.toolCalls cs t u]) (accText ++ t) (accUsage.add u)
      rw [this.1, this.2]
      simp [turnsText, turnsUsage, TurnOutcome.text, TurnOutcome.usage,
        String.append_assoc, Usage.add_assoc]

/-! ## Claim C2: the loop never exceeds the step limit and still returns the
accumulated text and usage -/

/-- C2 (the agent loop is modelled from the spec — the multi-step loop is
implemented by the AI SDK, configured by generate.ts with
`stopWhen: stepCountIs(20)`): the loop never completes more than `stepLimit`
turns; its result always carries the text and usage accumulated over the
turns actually taken (so hitting the limit is not an error); and an engine
that requests tool calls on every turn drives the loop to exactly
`stepLimit` completed turns. -/
theorem agent_loop_step_limit (respond : Engine) (stepLimit : Nat) :
    (runLoop respond stepLimit).stepCount ≤ stepLimit ∧
    (runLoop respond stepLimit).text =
      turnsText (loopTurns respond stepLimit []) ∧
    (runLoop respond stepLimit).usage =
      turnsUsage (loopTurns respond stepLimit []) ∧
    ((∀ tr, (respond tr).isToolUse = true) →
      (runLoop respond stepLimit).stepCount = stepLimit) := by
  refine ⟨?_, ?_, ?_, ?_⟩
  · have := runLoopAux_stepCount_le respond stepLimit [] "" ⟨0, 0, 0⟩
    simpa [runLoop] using this
  · have := (runLoopAux_accumulates respond stepLimit [] "" ⟨0, 0, 0⟩).1
    rw [runLoop, this, String.empty_append_eq]
  · have := (runLoopAux_accumulates respond stepLimit [] "" ⟨0, 0, 0⟩).2
    rw [runLoop, this, Usage.zero_add]
  · intro htools
    have := runLoopAux_stepCount_of_tools respond htools stepLimit [] "" ⟨0, 0, 0⟩
    simpa [runLoop] using this

/-- Witness for C2 at a concrete input: a scripted engine that always
requests another tool call, run with step limit 3, completes exactly 3
turns. -/
theorem agent_loop_step_limit_witness :
    (runLoop (fun _ => TurnOutcome.toolCalls [] "a" ⟨1, 2, 3⟩) 3).stepCount = 3 :=
  (agent_loop_step_limit (fun _ => TurnOutcome.toolCalls [] "a" ⟨1, 2, 3⟩)
    3).2.2.2 (fun _ => rfl)

/-! ## Claim C5: blocking and streaming variants aggregate identically -/

theorem chunksConcat_append_one (chunks : List String) (t : String) :
    chunksConcat (chunks ++ [t]) = chunksConcat chunks ++ t := by
  simp [chunksConcat, List.foldl_append]

theorem runStreamAux_agrees (respond : Engine) (fuel : Nat) :
    ∀ tr chunks accUsage,
      chunksConcat (runStreamAux respond fuel tr chunks accUsage).1 =
        (runLoopAux respond fuel tr (chunksConcat chunks) accUsage).text ∧
      (runStreamAux respond fuel tr chunks accUsage).2.1 =
        (runLoopAux respond fuel tr (chunksConcat chunks) accUsage).usage ∧
      (runStreamAux respond fuel tr chunks accUsage).2.2 =
        (runLoopAux respond fuel tr (chunksConcat chunks) accUsage).stepCount := by
  induction fuel with
  | zero =>
    intro tr chunks accUsage
    simp [runStreamAux, runLoopAux]
  | succ n ih =>
    intro tr chunks accUsage
    rw [runStreamAux, runLoopAux]
    cases hr : respond tr with
    | finalText t u => simp [chunksConcat_append_one]
    | toolCalls cs t u =>
      have := ih (tr ++ [.toolCalls cs t u]) (chunks ++ [t]) (accUsage.add u)
      rw [chunksConcat_append_one] at this
      exact this

/-- C5 (both loop variants are modelled from the spec — `generateText` and
`streamText` live in the AI SDK; generate.ts and its streaming variant
configure them identically): for every engine behaviour, topic, model choice
and output directory, the streaming variant's aggregated `{text, usage,
steps}` coincides with the blocking variant's. -/
theorem streaming_blocking_agree (engine : String → String → Engine)
    (topic : String) (model : Option String) (outputDir : String) :
    (handleGenerateStream engine topic model outputDir).2 =
      handleGenerate engine topic model outputDir := by
  have h := runStreamAux_agrees
    (engine (model.getD defaultModel) (promptFor topic outputDir))
    configuredStepLimit [] [] ⟨0, 0, 0⟩
  have hc : chunksConcat [] = "" := rfl
  rw [hc] at h
  simp only [handleGenerateStream, handleGenerate, runLoopStreaming, runLoop]
  rw [h.1, h.2.1, h.2.2]

/-! ## Substring-search lemmas -/

theorem isLeading_self_append (pat t : List Char) :
    isLeading pat (pat ++ t) = true := by
  induction pat with
  | nil => simp [isLeading]
  | cons a as ih => simp [isLeading, ih]

theorem isLeading_refl (pat : List Char) : isLeading pat pat = true := by
  have := isLeading_self_append pat []
  simpa using this

theorem isLeading_length_le (pat : List Char) :
    ∀ s, isLeading pat s = true → pat.length ≤ s.length := by
  induction pat with
  | nil => intro s _; simp
  | cons a as ih =>
    intro s h
    cases s with
    | nil => simp [isLeading] at h
    | cons b bs =>
      rw [isLeading] at h
      split at h
      · have := ih bs h
        simp
        omega
      · exact absurd h (by simp)

theorem isLeading_decomp (pat : List Char) :
    ∀ s, isLeading pat s = true → s = pat ++ s.drop pat.length := by
  induction pat with
  | nil => intro s _; simp
  | cons a as ih =>
    intro s h
    cases s with
    | nil => simp [isLeading] at h
    | cons b bs =>
      rw [isLeading] at h
      split at h
      · next heq =>
        have := ih bs h
        simp [← heq]
        exact this
      · exact absurd h (by simp)

theorem firstIndexAux_some (pat : List Char) :
    ∀ l i p, firstIndexAux pat l i = some p →
      ∃ k, p = i + k ∧ k ≤ l.length ∧ isLeading pat (l.drop k) = true := by
  intro l
  induction l with
  | nil =>
    intro i p h
    rw [firstIndexAux] at h
    split at h
    · next hl =>
      have hp : i = p := Option.some.inj h
      exact ⟨0, by omega, by simp, by simpa using hl⟩
    · exact absurd h (by simp)
  | cons c rest ih =>
    intro i p h
    rw [firstIndexAux] at h
    split at h
    · next hl =>
      have hp : i = p := Option.some.inj h
      exact ⟨0, by omega, by simp, by simpa using hl⟩
    · next hl =>
      obtain ⟨k, hp, hk, hlead⟩ := ih (i + 1) p h
      exact ⟨k + 1, by omega, by simp; omega, by simpa using hlead⟩

theorem firstIndexAux_none (pat : List Char) :
    ∀ l i, firstIndexAux pat l i = none →
      ∀ k, isLeading pat (l.drop k) = false := by
  intro l
  induction l with
  | nil =>
    intro i h k
    rw [firstIndexAux] at h
    split at h
    · exact absurd h (by simp)
    · next hl => simpa using hl
  | cons c rest ih =>
    intro i h k
    rw [firstIndexAux] at h
    split at h
    · exact absurd h (by simp)
    · next hl =>
      cases k with
      | zero => simpa using hl
      | succ k0 =>
        have := ih (i + 1) h k0
        simpa using this

theorem includes_of_leading {s pat : List Char} {k : Nat}
    (h : isLeading pat (s.drop k) = true) : includesSub s pat = true := by
  cases hopt : stringIndexOf s pat with
  | none =>
    have := firstIndexAux_none pat s 0 hopt k
    rw [h] at this
    exact absurd this (by simp)
  | some p => simp [includesSub, hopt]

theorem includes_middle (a x b : List Char) :
    includesSub (a ++ (x ++ b)) x = true := by
  apply includes_of_leading (k := a.length)
  rw [List.drop_left]
  exact isLeading_self_append x b

theorem includes_self (x : List Char) : includesSub x x = true :=
  includes_of_leading (k := 0) (by simpa using isLeading_refl x)

theorem includes_leading_append (x b : List Char) :
    includesSub (x ++ b) x = true :=
  includes_of_leading (k := 0) (by simpa using isLeading_self_append x b)

theorem includes_append_left {t x : List Char} (s : List Char)
    (h : includesSub t x = true) : includesSub (s ++ t) x = true := by
  rw [includesSub] at h
  cases hopt : stringIndexOf t x with
  | none => rw [hopt] at h; exact absurd h (by simp)
  | some p =>
    obtain ⟨k, _, _, hlead⟩ := firstIndexAux_some x t 0 p hopt
    apply includes_of_leading (k := s.length + k)
    rw [List.drop_append]
    exact hlead

theorem includes_pos_count {s pat : List Char}
    (h : includesSub s pat = true) : 0 < countOccur s pat := by
  rw [includesSub] at h
  cases hopt : stringIndexOf s pat with
  | none => rw [hopt] at h; exact absurd h (by simp)
  | some p =>
    obtain ⟨k, hp, hk, hlead⟩ := firstIndexAux_some pat s 0 p hopt
    rw [countOccur]
    rw [List.countP_pos_iff]
    exact ⟨k, List.mem_range.mpr (by omega), by simpa using hlead⟩

theorem includes_false_of_count_zero {s pat : List Char}
    (h : countOccur s pat = 0) : includesSub s pat = false := by
  cases hinc : includesSub s pat with
  | false => rfl
  | true =>
    have := includes_pos_count hinc
    omega

theorem includes_true_of_count_one {s pat : List Char}
    (h : countOccur s pat = 1) : includesSub s pat = true := by
  have hpos : 0 < countOccur s pat := by omega
  rw [countOccur, List.countP_pos_iff] at hpos
  obtain ⟨k, _, hk⟩ := hpos
  exact includes_of_leading (s := s) (k := k) (by simpa using hk)

/-! ## `GetSubstitution` lemmas -/

theorem getSubstitution_no_dollar (m b a : List Char) :
    ∀ l, '$' ∉ l → getSubstitution m b a l = l := by
  intro l
  induction l with
  | nil => intro _; rfl
  | cons c rest ih =>
    intro h
    have hc : c ≠ '$' := fun hc => h (hc ▸ List.mem_cons_self c rest)
    have hrest : '$' ∉ rest := fun hr => h (List.mem_cons_of_mem c hr)
    cases rest with
    | nil => rfl
    | cons d rest2 =>
      rw [getSubstitution, if_neg hc, ih hrest]

/-! ## Claim C3: str_replace semantics — refuted for replacement strings
containing ECMAScript substitution patterns, holds for dollar-free ones -/

/-- C3 counterexample: on content `a` with `old_str = "a"` and
`new_str = "$&$&"`, ECMAScript `String.prototype.replace` expands `$&` to the
matched text, so the file becomes `aa` (length 2), not `$&$&` (which the
claim's length arithmetic `1 + (4 - 1) = 4` would require). -/
theorem str_replace_dollar_counterexample :
    (textEditorExecute id [("f", "a")] (.strReplace "f" "a" "$&$&")).2 =
      [("f", "aa"), ("f", "a")] ∧
    countOccur "a".data "a".data = 1 ∧
    ¬ ("aa".length + "a".length = "a".length + "$&$&".length) := by
  refine ⟨by decide, by decide, by decide⟩

/-- C3 amended: provided the replacement string contains no dollar character
(so ECMAScript substitution is the identity), `str_replace` on content with
exactly one occurrence of `old` replaces that first occurrence — at the index
found by `indexOf` — with `new`, changing the length by
`len(new) - len(old)`; and on content with zero occurrences the call returns
the `PatternNotFound`-style error and leaves the file system unchanged. -/
theorem str_replace_first_occurrence (resolvePath : String → String) (fs : FS)
    (p old new cur : String) (h : fsLookup fs (resolvePath p) = some cur) :
    (countOccur cur.data old.data = 1 → '$' ∉ new.data →
      ∃ i, stringIndexOf cur.data old.data = some i ∧
        textEditorExecute resolvePath fs (.strReplace p old new) =
          ("File updated: " ++ p,
            writeFileSync fs (resolvePath p)
              (String.mk (cur.data.take i ++ new.data ++
                cur.data.drop (i + old.data.length)))) ∧
        (cur.data.take i ++ new.data ++
            cur.data.drop (i + old.data.length)).length + old.data.length =
          cur.data.length + new.data.length) ∧
    (countOccur cur.data old.data = 0 →
      textEditorExecute resolvePath fs (.strReplace p old new) =
        ("Error: old_str not found in " ++ p, fs)) := by
  have hex : existsSync fs (resolvePath p) = true := by simp [existsSync, h]
  have hread : readFileSync fs (resolvePath p) = cur := by simp [readFileSync, h]
  constructor
  · intro h1 hd
    have hinc : includesSub cur.data old.data = true := includes_true_of_count_one h1
    cases hopt : stringIndexOf cur.data old.data with
    | none => rw [includesSub, hopt] at hinc; exact absurd hinc (by simp)
    | some i =>
      obtain ⟨k, hp, hk, hlead⟩ := firstIndexAux_some old.data cur.data 0 i hopt
      have hi : i = k := by omega
      subst hi
      have hlen : old.data.length ≤ (cur.data.drop i).length :=
        isLeading_length_le old.data _ hlead
      rw [List.length_drop] at hlen
      refine ⟨i, rfl, ?_, ?_⟩
      · have hrepl : jsReplace cur.data old.data new.data =
            cur.data.take i ++ new.data ++ cur.data.drop (i + old.data.length) := by
          rw [jsReplace, hopt]
          show cur.data.take i ++
              getSubstitution old.data (cur.data.take i)
                (cur.data.drop (i + old.data.length)) new.data ++
              cur.data.drop (i + old.data.length) = _
          rw [getSubstitution_no_dollar _ _ _ new.data hd]
        simp [textEditorExecute, hex, hread, hinc, hrepl]
      · have hcl : cur.length = cur.data.length := rfl
        have hol : old.length = old.data.length := rfl
        have hnl : new.length = new.data.length := rfl
        simp [List.length_append, List.length_take, List.length_drop]
        omega
  · intro h0
    have hinc := includes_false_of_count_zero h0
    simp [textEditorExecute, hex, hread, hinc]

/-- Witness for the amended C3 at a concrete input: content `hello`, one
occurrence of `ell`, dollar-free replacement `ip`; and the unchanged-on-miss
branch for pattern `zzz`. -/
theorem str_replace_first_occurrence_witness :
    textEditorExecute id [("f", "hello")] (.strReplace "f" "ell" "ip") =
      ("File updated: f", [("f", "hipo"), ("f", "hello")]) ∧
    textEditorExecute id [("f", "hello")] (.strReplace "f" "zzz" "ip") =
      ("Error: old_str not found in f", [("f", "hello")]) := by
  obtain ⟨i, hidx, heq, hlen⟩ :=
    (str_replace_first_occurrence id [("f", "hello")] "f" "ell" "ip" "hello"
      rfl).1 (by decide) (by decide)
  have hi : i = 1 := by
    have h1 : stringIndexOf "hello".data "ell".data = some 1 := by decide
    rw [h1] at hidx
    exact (Option.some.inj hidx).symm
  subst hi
  refine ⟨?_,
    (str_replace_first_occurrence id [("f", "hello")] "f" "zzz" "ip" "hello"
      rfl).2 (by decide)⟩
  rw [heq]
  decide

/-! ## Claim C4: every bash failure becomes a returned text carrying the
message, stderr and stdout -/

/-- C4: the bash tool's `try`/`catch` converts every failure outcome of
`execSync` (non-zero exit, timeout, spawn failure) into a *returned* string —
nothing propagates to the orchestrator — and that string contains the failure
message, the captured stderr and the captured stdout as substrings.  The
`isError` flag lives in the SDK's `ToolResult` envelope, which is modelled
from the spec (`bashToolResult`) and marks exactly these failure results as
errors. -/
theorem bash_failure_reported_as_text {σ : Type}
    (shell : σ → String → ExecOutcome × σ) (st : σ) (command : String)
    (e : ExecError) (st' : σ) (h : shell st command = (.failure e, st')) :
    bashExecute shell st command false =
      ("Error: " ++ e.message ++ "\nStderr: " ++ e.stderr.getD "" ++
        "\nStdout: " ++ e.stdout.getD "", st') ∧
    includesSub (bashExecute shell st command false).1.data e.message.data = true ∧
    includesSub (bashExecute shell st command false).1.data
      (e.stderr.getD "").data = true ∧
    includesSub (bashExecute shell st command false).1.data
      (e.stdout.getD "").data = true ∧
    (bashToolResult shell st command false).1.isError = true := by
  have hout : bashExecute shell st command false =
      ("Error: " ++ e.message ++ "\nStderr: " ++ e.stderr.getD "" ++
        "\nStdout: " ++ e.stdout.getD "", st') := by
    simp [bashExecute, h]
  refine ⟨hout, ?_, ?_, ?_, ?_⟩
  · rw [hout]
    simp only [String.data_append, List.append_assoc]
    exact includes_middle _ _ _
  · rw [hout]
    simp only [String.data_append, List.append_assoc]
    apply includes_append_left
    apply includes_append_left
    apply includes_append_left
    exact includes_leading_append _ _
  · rw [hout]
    simp only [String.data_append, List.append_assoc]
    apply includes_append_left
    apply includes_append_left
    apply includes_append_left
    apply includes_append_left
    apply includes_append_left
    exact includes_self _
  · simp [bashToolResult, h]

/-- Witness for C4 at a concrete input: a shell whose command fails with
message `boom`, stderr `SE`, stdout `SO`. -/
theorem bash_failure_reported_as_text_witness :
    bashExecute (fun (s : Unit) _ => (ExecOutcome.failure ⟨"boom", some "SE", some "SO"⟩, s))
        () "cmd" false = ("Error: boom\nStderr: SE\nStdout: SO", ()) :=
  (bash_failure_reported_as_text
    (fun (s : Unit) _ => (ExecOutcome.failure ⟨"boom", some "SE", some "SO"⟩, s))
    () "cmd" ⟨"boom", some "SE", some "SO"⟩ () rfl).1

/-! ## Split/join lemmas for line-based editing -/

theorem splitNlAux_append_nl (y : List Char) :
    ∀ x, splitNlAux (x ++ '\n' :: y) =
      ((splitNlAux x).1, (splitNlAux x).2 ++ splitNl y) := by
  intro x
  induction x with
  | nil => simp [splitNlAux, splitNl]
  | cons c rest ih =>
    by_cases hc : c = '\n'
    · simp [splitNlAux, hc, ih, splitNl]
    · simp [splitNlAux, hc, ih]

theorem splitNl_append_nl (x y : List Char) :
    splitNl (x ++ '\n' :: y) = splitNl x ++ splitNl y := by
  rw [splitNl, splitNl, splitNlAux_append_nl]
  rfl

theorem splitNlAux_no_nl : ∀ l : List Char, '\n' ∉ l → splitNlAux l = (l, []) := by
  intro l
  induction l with
  | nil => intro _; rfl
  | cons c rest ih =>
    intro h
    have hc : c ≠ '\n' := fun hc => h (hc ▸ List.mem_cons_self c rest)
    have hrest : '\n' ∉ rest := fun hr => h (List.mem_cons_of_mem c hr)
    simp [splitNlAux, hc, ih hrest]

theorem splitNl_no_nl (l : List Char) (h : '\n' ∉ l) : splitNl l = [l] := by
  rw [splitNl, splitNlAux_no_nl l h]

theorem splitNlAux_pieces_no_nl :
    ∀ s : List Char, '\n' ∉ (splitNlAux s).1 ∧
      ∀ piece ∈ (splitNlAux s).2, '\n' ∉ piece := by
  intro s
  induction s with
  | nil => simp [splitNlAux]
  | cons c rest ih =>
    by_cases hc : c = '\n'
    · simp only [splitNlAux, hc, if_pos]
      refine ⟨by simp, ?_⟩
      intro piece hp
      rcases List.mem_cons.mp hp with h1 | h2
      · exact h1 ▸ ih.1
      · exact ih.2 piece h2
    · simp only [splitNlAux, if_neg hc]
      refine ⟨?_, ih.2⟩
      intro hmem
      rcases List.mem_cons.mp hmem with h1 | h2
      · exact hc h1.symm
      · exact ih.1 h2

theorem mem_splitNl_no_nl {s piece : List Char} (h : piece ∈ splitNl s) :
    '\n' ∉ piece := by
  rw [splitNl] at h
  rcases List.mem_cons.mp h with h1 | h2
  · exact h1 ▸ (splitNlAux_pieces_no_nl s).1
  · exact (splitNlAux_pieces_no_nl s).2 piece h2

theorem joinNl_cons {rest : List (List Char)} (a : List Char) (h : rest ≠ []) :
    joinNl (a :: rest) = a ++ '\n' :: joinNl rest := by
  cases rest with
  | nil => exact absurd rfl h
  | cons b rest2 => rw [joinNl]

theorem splitNl_joinNl_no_nl :
    ∀ L : List (List Char), L ≠ [] → (∀ l ∈ L, '\n' ∉ l) →
      splitNl (joinNl L) = L := by
  intro L
  induction L with
  | nil => intro h _; exact absurd rfl h
  | cons a rest ih =>
    intro _ hmem
    cases rest with
    | nil =>
      rw [joinNl, splitNl_no_nl a (hmem a (List.mem_cons_self a []))]
    | cons b rest2 =>
      rw [joinNl_cons a (by simp), splitNl_append_nl,
        splitNl_no_nl a (hmem a (List.mem_cons_self a _)),
        ih (by simp) (fun l hl => hmem l (List.mem_cons_of_mem a hl))]
      rfl

theorem splitNl_joinNl_middle (t : List Char) :
    ∀ A B : List (List Char), (∀ l ∈ A, '\n' ∉ l) → (∀ l ∈ B, '\n' ∉ l) →
      splitNl (joinNl (A ++ t :: B)) = A ++ splitNl t ++ B := by
  intro A
  induction A with
  | nil =>
    intro B _ hB
    cases B with
    | nil => simp [joinNl]
    | cons b rest =>
      rw [List.nil_append, joinNl_cons t (by simp), splitNl_append_nl,
        splitNl_joinNl_no_nl (b :: rest) (by simp) hB]
      simp
  | cons a A' ih =>
    intro B hA hB
    rw [List.cons_append, joinNl_cons a (by simp), splitNl_append_nl,
      splitNl_no_nl a (hA a (List.mem_cons_self a _)),
      ih B (fun l hl => hA l (List.mem_cons_of_mem a hl)) hB]
    rfl

/-! ## Claim C6: insert adds the lines of `text` before line `i` — refuted
for an index beyond the end of the file, holds for `i ≤ lineCount` -/

/-- C6 counterexample: inserting `b` at line index 5 of a one-line file `a`
yields the two-line file `a\nb` — the resulting file has no line 5 at all
(its line list has length 2 and dropping 5 lines leaves nothing), so the
inserted content does not appear starting at line 5; JavaScript `splice`
clamps the index to the line count and appends at the end instead. -/
theorem insert_line_clamp_counterexample :
    (textEditorExecute id [("f", "a")] (.insert "f" 5 "b")).2 =
      [("f", "a\nb"), ("f", "a")] ∧
    (splitNl "a\nb".data).length = 2 ∧
    (splitNl "a\nb".data).drop 5 = [] ∧
    splitNl "b".data ≠ [] := by
  refine ⟨by decide, by decide, by decide, by decide⟩

/-- C6 amended: for every existing file and insertion index `i`, `insert`
increases the line count by exactly the number of lines of `text`
(unconditionally — `splice` clamps out-of-range indices); and whenever
`0 ≤ i ≤ lineCount`, the lines of `text` appear starting exactly at 0-based
line `i` of the result, before the line previously at index `i`. -/
theorem insert_at_line_amended (resolvePath : String → String) (fs : FS)
    (p text cur : String) (i : Int)
    (h : fsLookup fs (resolvePath p) = some cur) :
    ∃ newContent,
      textEditorExecute resolvePath fs (.insert p i text) =
        ("Text inserted at line " ++ toString i ++ " in " ++ p,
          writeFileSync fs (resolvePath p) newContent) ∧
      (splitNl newContent.data).length =
        (splitNl cur.data).length + (splitNl text.data).length ∧
      (0 ≤ i → i.toNat ≤ (splitNl cur.data).length →
        splitNl newContent.data =
          (splitNl cur.data).take i.toNat ++ splitNl text.data ++
            (splitNl cur.data).drop i.toNat) := by
  have hex : existsSync fs (resolvePath p) = true := by simp [existsSync, h]
  have hread : readFileSync fs (resolvePath p) = cur := by simp [readFileSync, h]
  have hA : ∀ l ∈ (splitNl cur.data).take (jsIndex (splitNl cur.data).length i),
      '\n' ∉ l := fun l hl => mem_splitNl_no_nl (List.take_subset _ _ hl)
  have hB : ∀ l ∈ (splitNl cur.data).drop (jsIndex (splitNl cur.data).length i),
      '\n' ∉ l := fun l hl => mem_splitNl_no_nl (List.drop_subset _ _ hl)
  have hsplit : splitNl (joinNl (jsSpliceInsert (splitNl cur.data) i text.data)) =
      (splitNl cur.data).take (jsIndex (splitNl cur.data).length i) ++
        splitNl text.data ++
        (splitNl cur.data).drop (jsIndex (splitNl cur.data).length i) := by
    rw [jsSpliceInsert]
    exact splitNl_joinNl_middle text.data _ _ hA hB
  have hle : jsIndex (splitNl cur.data).length i ≤ (splitNl cur.data).length := by
    rw [jsIndex]
    split
    · omega
    · omega
  refine ⟨String.mk (joinNl (jsSpliceInsert (splitNl cur.data) i text.data)),
    ?_, ?_, ?_⟩
  · simp [textEditorExecute, hex, hread]
  · show (splitNl (joinNl (jsSpliceInsert (splitNl cur.data) i text.data))).length = _
    rw [hsplit]
    simp [List.length_append, List.length_take, List.length_drop]
    omega
  · intro h0 hiLe
    have hidx : jsIndex (splitNl cur.data).length i = i.toNat := by
      rw [jsIndex]
      split
      · omega
      · omega
    show splitNl (joinNl (jsSpliceInsert (splitNl cur.data) i text.data)) = _
    rw [hsplit, hidx]

/-- Witness for the amended C6 at a concrete input: a two-line file `a\nb`,
inserting the two-line text `x\ny` at line index 1. -/
theorem insert_at_line_amended_witness :
    textEditorExecute id [("f", "a\nb")] (.insert "f" 1 "x\ny") =
      ("Text inserted at line 1 in f", [("f", "a\nx\ny\nb"), ("f", "a\nb")]) ∧
    (splitNl "a\nx\ny\nb".data).length =
      (splitNl "a\nb".data).length + (splitNl "x\ny".data).length := by
  obtain ⟨nc, h1, h2, h3⟩ :=
    insert_at_line_amended id [("f", "a\nb")] "f" "x\ny" "a\nb" 1 rfl
  have hC : textEditorExecute id [("f", "a\nb")] (.insert "f" 1 "x\ny") =
      ("Text inserted at line 1 in f", [("f", "a\nx\ny\nb"), ("f", "a\nb")]) := by
    decide
  have h4 := h1.symm.trans hC
  have hnc : nc = "a\nx\ny\nb" := by
    have h5 := congrArg Prod.snd h4
    simp only [writeFileSync] at h5
    have h6 := (List.cons.injEq _ _ _ _).mp h5
    exact ((Prod.mk.injEq _ _ _ _).mp h6.1).2
  refine ⟨hC, ?_⟩
  rw [hnc] at h2
  exact h2

end ManimAgent
